import Mathlib

/-!
Shallow embedding of the event bus of `radicle/src/node/events.rs` and the
patch label command of `radicle-cli/src/commands/patch/label.rs`.

The broadcast engine (`Emitter`) keeps an ordered registry of subscriber
channels; `emit` delivers a clone of the event to each channel with a
non-blocking send and drops (via `Vec::retain`) every subscriber whose send
fails; `subscribe` registers a fresh bounded channel of capacity
`MAX_PENDING_EVENTS`. Channels are modelled as FIFO queues held in the
registry; the `id` field of a subscriber is a model artifact identifying
the channel endpoint pair across states (the source identifies a channel by
its heap allocation).
-/

set_option autoImplicit false

namespace Heartwood

/-- Maximum unconsumed events allowed per subscription
(`MAX_PENDING_EVENTS` in `events.rs`). -/
def MAX_PENDING_EVENTS : Nat := 8192

/-- One registered subscription: the bounded channel created by
`Emitter::subscribe`. `queue` holds the events sent but not yet received
(front of the list is the oldest); `capacity` is the bound given to
`chan::bounded`; `receiverAlive` records whether the receive side has been
dropped. `id` identifies the channel across states (a model artifact). -/
structure Subscriber (T : Type) where
  id : Nat
  queue : List T
  capacity : Nat
  receiverAlive : Bool
  deriving Repr, DecidableEq

/-- Non-blocking send on a bounded channel (`Sender::try_send` of
crossbeam): succeeds and enqueues exactly when the receive side is alive
and the buffer is below capacity; otherwise fails (Full or Disconnected). -/
def trySend {T : Type} (s : Subscriber T) (e : T) : Option (Subscriber T) :=
  if s.receiverAlive && decide (s.queue.length < s.capacity) then
    some { s with queue := s.queue ++ [e] }
  else
    none

/-- Publishes events to subscribers (`Emitter<T>` in `events.rs`).
`subscribers` is the registry behind the mutex; `nextId` is a model
artifact supplying fresh channel identities. -/
structure Emitter (T : Type) where
  subscribers : List (Subscriber T)
  nextId : Nat
  deriving Repr, DecidableEq

/-- The `Default` impl: an empty registry. -/
def Emitter.default {T : Type} : Emitter T := { subscribers := [], nextId := 0 }

/-- Emit event to subscribers and drop those who cannot receive it
(`Emitter::emit`): `retain(|s| s.try_send(event.clone()).is_ok())`,
realised as `filterMap` so the successful sends keep their updated queues
in registry order. -/
def Emitter.emit {T : Type} (em : Emitter T) (e : T) : Emitter T :=
  { em with subscribers := em.subscribers.filterMap (fun s => trySend s e) }

/-- A sequence of `emit` calls, first element emitted first. -/
def Emitter.emitAll {T : Type} (em : Emitter T) (es : List T) : Emitter T :=
  es.foldl Emitter.emit em

/-- Subscribe to the events stream (`Emitter::subscribe`): create a bounded
channel of capacity `MAX_PENDING_EVENTS`, push its send side onto the
registry, return the receive side (modelled by the fresh channel id). -/
def Emitter.subscribe {T : Type} (em : Emitter T) : Emitter T × Nat :=
  ({ subscribers :=
      em.subscribers ++ [{ id := em.nextId, queue := [], capacity := MAX_PENDING_EVENTS, receiverAlive := true }],
     nextId := em.nextId + 1 },
   em.nextId)

/-- Number of subscribers (`Emitter::subscriptions`). -/
def Emitter.subscriptions {T : Type} (em : Emitter T) : Nat :=
  em.subscribers.length

/-- Number of messages that have not yet been received
(`Emitter::pending`): the sum of the channel lengths. -/
def Emitter.pending {T : Type} (em : Emitter T) : Nat :=
  (em.subscribers.map (fun s => s.queue.length)).sum

/-- Iterated `subscribe`, discarding the returned receive handles. -/
def Emitter.subscribeN {T : Type} (em : Emitter T) : Nat → Emitter T
  | 0 => em
  | n + 1 => ((em.subscribeN n).subscribe).1

/-- Iteration of an `Events` handle (`Events::into_iter`, backed by
`chan::IntoIter`): yields the buffered events in FIFO order; the sequence
is finite exactly when the send side is gone, in which case it is the
queue content at that point. -/
def Events.intoIter {T : Type} (s : Subscriber T) : List T :=
  s.queue

/-! Basic lemmas about `emit` and `emitAll`. -/

theorem emitAll_nil {T : Type} (em : Emitter T) : em.emitAll [] = em := rfl

theorem emitAll_cons {T : Type} (em : Emitter T) (e : T) (es : List T) :
    em.emitAll (e :: es) = (em.emit e).emitAll es := rfl

theorem trySend_eq_some {T : Type} (s : Subscriber T) (e : T)
    (halive : s.receiverAlive = true) (hlen : s.queue.length < s.capacity) :
    trySend s e = some { s with queue := s.queue ++ [e] } := by
  simp [trySend, halive, hlen]

theorem trySend_eq_none_iff {T : Type} (s : Subscriber T) (e : T) :
    trySend s e = none ↔ (s.receiverAlive = false ∨ s.capacity ≤ s.queue.length) := by
  rcases s with ⟨i, q, c, a⟩
  cases a <;> simp [trySend]

theorem filterMap_eq_map_of_all_some {α β : Type} (f : α → Option β) (g : α → β) :
    ∀ l : List α, (∀ x ∈ l, f x = some (g x)) → l.filterMap f = l.map g := by
  intro l
  induction l with
  | nil => intro _; rfl
  | cons x xs ih =>
    intro h
    rw [List.filterMap_cons, h x (by simp), List.map_cons,
      ih fun y hy => h y (by simp [hy])]

/-- When every subscriber is alive and has room for all of `es`, a run of
emits appends `es` to every queue and prunes nobody. -/
theorem emitAll_subscribers_map {T : Type} (es : List T) :
    ∀ em : Emitter T,
      (∀ s ∈ em.subscribers, s.receiverAlive = true ∧ s.queue.length + es.length ≤ s.capacity) →
      (em.emitAll es).subscribers = em.subscribers.map (fun s => { s with queue := s.queue ++ es }) := by
  induction es with
  | nil =>
    intro em _
    simp [emitAll_nil]
  | cons e es ih =>
    intro em h
    rw [emitAll_cons]
    have hemit : (em.emit e).subscribers
        = em.subscribers.map (fun s => { s with queue := s.queue ++ [e] }) := by
      apply filterMap_eq_map_of_all_some
      intro s hs
      have := h s hs
      exact trySend_eq_some s e this.1 (by simp at this; omega)
    have hnext : ∀ s ∈ (em.emit e).subscribers,
        s.receiverAlive = true ∧ s.queue.length + es.length ≤ s.capacity := by
      intro s hs
      rw [hemit] at hs
      rcases List.mem_map.mp hs with ⟨u, hu, rfl⟩
      have := h u hu
      constructor
      · exact this.1
      · simp at this ⊢; omega
    rw [ih (em.emit e) hnext, hemit, List.map_map]
    apply List.map_congr_left
    intro s _
    simp

/-! Model of `Events::wait`. Physical time is abstracted to natural-number
durations. A channel trace lists what the bounded receives of the loop
encounter, in order: either an event arriving `dt` time units after the
previous receive returned, or the disconnection of the send side `dt` time
units after it. `recv_timeout(remaining)` returns the next outcome when it
occurs strictly before `remaining` elapses, and times out otherwise. -/

/-- One thing the next bounded receive can encounter on the channel. -/
inductive RecvOutcome (E : Type) where
  | ok (e : E) (dt : Nat)
  | disconnected (dt : Nat)
  deriving Repr, DecidableEq

/-- The error type of `recv_timeout` (`chan::RecvTimeoutError`), which
`Events::wait` returns unchanged. -/
inductive RecvTimeoutError where
  | timeout
  | disconnected
  deriving Repr, DecidableEq

/-- The loop of `Events::wait`: while `start.elapsed()` has not passed
`timeout` (`checked_sub` succeeds), perform one `recv_timeout` bounded by
the remaining budget; on an event, apply the predicate and either return
its value or discard the event and loop; on disconnection, return the
disconnect error; when the bounded receive itself times out, the loop
re-enters with the budget exhausted and returns the timeout error. The
second component is the total time spent blocked. -/
def Events.wait {E T : Type} (f : E → Option T) (timeout : Nat) :
    List (RecvOutcome E) → Nat → Except RecvTimeoutError T × Nat
  | trace, elapsed =>
    if elapsed ≤ timeout then
      match trace with
      | [] => (.error .timeout, timeout)
      | .ok e dt :: rest =>
        if dt < timeout - elapsed then
          match f e with
          | some v => (.ok v, elapsed + dt)
          | none => Events.wait f timeout rest (elapsed + dt)
        else (.error .timeout, timeout)
      | .disconnected dt :: _ =>
        if dt < timeout - elapsed then (.error .disconnected, elapsed + dt)
        else (.error .timeout, timeout)
    else (.error .timeout, elapsed)

/-- A trace of arrived events with their inter-arrival delays, injected
into `RecvOutcome`. -/
def okTrace {E : Type} (pre : List (E × Nat)) : List (RecvOutcome E) :=
  pre.map (fun p => RecvOutcome.ok p.1 p.2)

/-- When no received event satisfies the predicate and the channel never
disconnects, the loop always ends in a timeout error. -/
theorem wait_timeout_of_no_match {E T : Type} (f : E → Option T) (timeout : Nat) :
    ∀ (trace : List (RecvOutcome E)) (elapsed : Nat),
      (∀ o ∈ trace, ∃ e dt, o = RecvOutcome.ok e dt ∧ f e = none) →
      (Events.wait f timeout trace elapsed).1 = Except.error RecvTimeoutError.timeout := by
  intro trace
  induction trace with
  | nil =>
    intro elapsed _
    rw [Events.wait]
    by_cases h : elapsed ≤ timeout <;> simp [h]
  | cons o rest ih =>
    intro elapsed h
    rcases h o (by simp) with ⟨e, dt, rfl, hf⟩
    rw [Events.wait]
    by_cases hel : elapsed ≤ timeout
    · simp only [if_pos hel]
      by_cases hdt : dt < timeout - elapsed
      · simp only [if_pos hdt, hf]
        exact ih (elapsed + dt) fun o ho => h o (by simp [ho])
      · simp [hdt]
    · simp [hel]

/-- Running `wait` over a prefix of non-matching events followed by a
matching event returns the value of the predicate at the matching event,
at the cumulative arrival time. -/
theorem wait_ok_of_match {E T : Type} (f : E → Option T) (timeout : Nat) (v : T) :
    ∀ (pre : List (E × Nat)) (elapsed : Nat) (e : E) (dt : Nat) (rest : List (RecvOutcome E)),
      (∀ p ∈ pre, f p.1 = none) →
      f e = some v →
      elapsed + ((pre.map Prod.snd).sum + dt) < timeout →
      Events.wait f timeout (okTrace pre ++ RecvOutcome.ok e dt :: rest) elapsed
        = (Except.ok v, elapsed + ((pre.map Prod.snd).sum + dt)) := by
  intro pre
  induction pre with
  | nil =>
    intro elapsed e dt rest _ hf htime
    simp only [okTrace, List.map_nil, List.nil_append, List.map_nil, List.sum_nil]
    rw [Events.wait]
    rw [if_pos (by omega), if_pos (by omega), hf]
    simp
  | cons p pre ih =>
    intro elapsed e dt rest hpre hf htime
    have hp : f p.1 = none := hpre p (by simp)
    simp only [okTrace, List.map_cons, List.cons_append, List.map_cons, List.sum_cons] at htime ⊢
    rw [Events.wait]
    rw [if_pos (by omega), if_pos (by omega), hp]
    have := ih (elapsed + p.2) e dt rest (fun q hq => hpre q (by simp [hq])) hf (by omega)
    simp only [okTrace] at this
    rw [this]
    simp only [Prod.mk.injEq, true_and]
    omega

/-- Running `wait` over a prefix of non-matching events followed by a
disconnection that occurs strictly before the budget runs out returns the
disconnect error, at the cumulative detection time. -/
theorem wait_disconnected_of_closed {E T : Type} (f : E → Option T) (timeout : Nat) :
    ∀ (pre : List (E × Nat)) (elapsed : Nat) (dt : Nat) (rest : List (RecvOutcome E)),
      (∀ p ∈ pre, f p.1 = none) →
      elapsed + ((pre.map Prod.snd).sum + dt) < timeout →
      Events.wait f timeout (okTrace pre ++ RecvOutcome.disconnected dt :: rest) elapsed
        = (Except.error RecvTimeoutError.disconnected, elapsed + ((pre.map Prod.snd).sum + dt)) := by
  intro pre
  induction pre with
  | nil =>
    intro elapsed dt rest _ htime
    simp only [okTrace, List.map_nil, List.nil_append, List.sum_nil]
    rw [Events.wait]
    rw [if_pos (by omega), if_pos (by omega)]
    simp
  | cons p pre ih =>
    intro elapsed dt rest hpre htime
    have hp : f p.1 = none := hpre p (by simp)
    simp only [okTrace, List.map_cons, List.cons_append, List.sum_cons] at htime ⊢
    rw [Events.wait]
    rw [if_pos (by omega), if_pos (by omega), hp]
    have := ih (elapsed + p.2) dt rest (fun q hq => hpre q (by simp [hq])) (by omega)
    simp only [okTrace] at this
    rw [this]
    simp only [Prod.mk.injEq, true_and]
    omega

/-! Lemmas tracking a channel identity through emits: `emit` never creates
a registry entry, so an identity absent from the registry stays absent. -/

theorem emit_mem_of_mem {T : Type} (em : Emitter T) (e : T) :
    ∀ t ∈ (em.emit e).subscribers, ∃ u ∈ em.subscribers, trySend u e = some t := by
  intro t ht
  rcases List.mem_filterMap.mp ht with ⟨u, hu, hsend⟩
  exact ⟨u, hu, hsend⟩

theorem trySend_id {T : Type} {u t : Subscriber T} {e : T} (h : trySend u e = some t) :
    t.id = u.id := by
  by_cases hc : u.receiverAlive && decide (u.queue.length < u.capacity)
  · simp [trySend, hc] at h
    rw [← h]
  · simp [trySend, hc] at h

theorem emit_id_absent {T : Type} (em : Emitter T) (e : T) (i : Nat)
    (h : ∀ u ∈ em.subscribers, u.id ≠ i) :
    ∀ t ∈ (em.emit e).subscribers, t.id ≠ i := by
  intro t ht
  rcases emit_mem_of_mem em e t ht with ⟨u, hu, hsend⟩
  rw [trySend_id hsend]
  exact h u hu

theorem emitAll_id_absent {T : Type} (es : List T) :
    ∀ (em : Emitter T) (i : Nat),
      (∀ u ∈ em.subscribers, u.id ≠ i) →
      ∀ t ∈ (em.emitAll es).subscribers, t.id ≠ i := by
  induction es with
  | nil => intro em i h; exact h
  | cons e es ih =>
    intro em i h
    rw [emitAll_cons]
    exact ih (em.emit e) i (emit_id_absent em e i h)

/-- The events buffered for a given channel identity only ever come from
the initial bound `S` or from the emitted sequence. -/
theorem emitAll_queue_mem {T : Type} (es : List T) :
    ∀ (em : Emitter T) (i : Nat) (S : List T),
      (∀ u ∈ em.subscribers, u.id = i → ∀ x ∈ u.queue, x ∈ S) →
      ∀ t ∈ (em.emitAll es).subscribers, t.id = i → ∀ x ∈ t.queue, x ∈ S ++ es := by
  induction es with
  | nil =>
    intro em i S h t ht hid x hx
    simpa using h t ht hid x hx
  | cons e es ih =>
    intro em i S h t ht hid x hx
    rw [emitAll_cons] at ht
    have hstep : ∀ u ∈ (em.emit e).subscribers, u.id = i → ∀ x ∈ u.queue, x ∈ S ++ [e] := by
      intro u hu huid y hy
      rcases emit_mem_of_mem em e u hu with ⟨w, hw, hsend⟩
      have hwq : u.queue = w.queue ++ [e] := by
        by_cases hc : w.receiverAlive && decide (w.queue.length < w.capacity)
        · simp [trySend, hc] at hsend
          rw [← hsend]
        · simp [trySend, hc] at hsend
      rw [hwq] at hy
      rcases List.mem_append.mp hy with hyl | hyr
      · exact List.mem_append.mpr (Or.inl (h w hw (by rw [← trySend_id hsend, huid]) y hyl))
      · exact List.mem_append.mpr (Or.inr hyr)
    have := ih (em.emit e) i (S ++ [e]) hstep t ht hid x hx
    simpa using this

/-- Every subscriber produced by `subscribeN` from the empty registry is a
fresh channel: empty buffer, capacity `MAX_PENDING_EVENTS`, alive. -/
theorem subscribeN_subscribers {T : Type} :
    ∀ n : Nat,
      ((Emitter.default (T := T)).subscribeN n).subscribers.length = n ∧
      ∀ s ∈ ((Emitter.default (T := T)).subscribeN n).subscribers,
        s.queue = [] ∧ s.capacity = MAX_PENDING_EVENTS ∧ s.receiverAlive = true := by
  intro n
  induction n with
  | zero => simp [Emitter.subscribeN, Emitter.default]
  | succ n ih =>
    constructor
    · simp only [Emitter.subscribeN, Emitter.subscribe, List.length_append, List.length_cons,
        List.length_nil]
      omega
    · intro s hs
      simp only [Emitter.subscribeN, Emitter.subscribe] at hs
      rcases List.mem_append.mp hs with hold | hnew
      · exact ih.2 s hold
      · simp at hnew
        simp [hnew]

/-! Heap model for `Clone`. `Emitter` derives `Clone`; cloning clones the
`Arc` around the registry, so the clone is a second handle to the same
allocation. The heap holds the allocations (the mutex-protected
registries); a handle is a pointer into it. -/

/-- A handle to an `Emitter` allocation: what a cloned `Emitter` value is. -/
structure EmitterRef where
  ptr : Nat
  deriving Repr, DecidableEq

/-- The heap of emitter allocations shared by all handles. -/
structure World (T : Type) where
  heap : List (Emitter T)
  deriving Repr

/-- Dereference a handle (locking the mutex of that allocation). -/
def World.getEmitter {T : Type} (w : World T) (r : EmitterRef) : Emitter T :=
  w.heap.getD r.ptr Emitter.default

/-- Store back the registry of one allocation. -/
def World.setEmitter {T : Type} (w : World T) (r : EmitterRef) (em : Emitter T) : World T :=
  { heap := w.heap.set r.ptr em }

/-- Derived `Clone::clone` on `Emitter`: clone the `Arc`, yielding a handle
to the same allocation; the heap is untouched. -/
def World.cloneEmitter {T : Type} (w : World T) (r : EmitterRef) : World T × EmitterRef :=
  (w, { ptr := r.ptr })

/-- An operation invoked through some handle. -/
inductive EmOp (T : Type) where
  | emit (e : T)
  | subscribe
  deriving Repr

/-- Apply one operation through a handle. -/
def World.applyOp {T : Type} (w : World T) (r : EmitterRef) : EmOp T → World T
  | .emit e => w.setEmitter r ((w.getEmitter r).emit e)
  | .subscribe => w.setEmitter r ((w.getEmitter r).subscribe).1

/-- Run an interleaving of operations, each through its own handle. -/
def World.runOps {T : Type} (w : World T) : List (EmitterRef × EmOp T) → World T
  | [] => w
  | (r, op) :: rest => (w.applyOp r op).runOps rest

/-- Read `subscriptions()` through a handle. -/
def World.subscriptionsW {T : Type} (w : World T) (r : EmitterRef) : Nat :=
  (w.getEmitter r).subscriptions

/-! Model of the label computation of the patch label command
(`radicle-cli/src/commands/patch/label.rs`): the existing labels of the
patch are filtered by membership in the remove set, then the add set is
chained behind them. The sets are modelled by their iteration order as
lists. -/

/-- The resulting label list of `run`:
`patch.labels().filter(|l| !remove.contains(l)).chain(add.iter())`. -/
def labelRun {L : Type} [DecidableEq L] (labels add remove : List L) : List L :=
  (labels.filter (fun l => decide (l ∉ remove))) ++ add

/-! Model of the `Event` enum and its serde serialization. The enum is
declared with `serde(rename_all = "camelCase", tag = "type")`: internally
tagged, a discriminant entry `"type"` holding the variant name renamed by
the camelCase rule (first character lowercased), followed by the variant
fields under their declared names. The leaf field types (`NodeId`,
`RepoId`, `Oid`, `RefUpdate`, `refs::RefsAt`, `Timestamp`, `Alias`,
`node::Features`, `node::Address`, `upload_pack::UploadPack`) live outside
the excerpt and are abstracted as type parameters with caller-supplied
serializers. -/

/-- A serialized value. -/
inductive Json where
  | str (s : String)
  | arr (xs : List Json)
  | obj (fields : List (String × Json))
  deriving Repr

/-- The serde rename rule `camelCase` applied to a PascalCase identifier:
lowercase the first character, keep the rest. -/
def camelCase (s : String) : String :=
  match s.data with
  | [] => s
  | c :: cs => String.mk (Char.toLower c :: cs)

/-- The `Event` enum of `events.rs`, with its external leaf types held
abstract. Variant and field names follow the source declaration. -/
inductive Event (NId RId OidT RefUpd RefsAtT Ts AliasT Feat Addr UP : Type) where
  | RefsFetched (remote : NId) (rid : RId) (updated : List RefUpd)
  | RefsSynced (remote : NId) (rid : RId) (at_ : OidT)
  | SeedDiscovered (rid : RId) (nid : NId)
  | SeedDropped (rid : RId) (nid : NId)
  | PeerConnected (nid : NId)
  | PeerDisconnected (nid : NId) (reason : String)
  | LocalRefsAnnounced (rid : RId) (refs : RefsAtT) (timestamp : Ts)
  | InventoryAnnounced (nid : NId) (inventory : List RId) (timestamp : Ts)
  | RefsAnnounced (nid : NId) (rid : RId) (refs : List RefsAtT) (timestamp : Ts)
  | NodeAnnounced (nid : NId) (alias_ : AliasT) (timestamp : Ts) (features : Feat) (addresses : List Addr)
  | UploadPackEv (up : UP)

section EventSerialization

variable {NId RId OidT RefUpd RefsAtT Ts AliasT Feat Addr UP : Type}

/-- The Rust name of the variant of an event. -/
def Event.variantName : Event NId RId OidT RefUpd RefsAtT Ts AliasT Feat Addr UP → String
  | .RefsFetched .. => "RefsFetched"
  | .RefsSynced .. => "RefsSynced"
  | .SeedDiscovered .. => "SeedDiscovered"
  | .SeedDropped .. => "SeedDropped"
  | .PeerConnected .. => "PeerConnected"
  | .PeerDisconnected .. => "PeerDisconnected"
  | .LocalRefsAnnounced .. => "LocalRefsAnnounced"
  | .InventoryAnnounced .. => "InventoryAnnounced"
  | .RefsAnnounced .. => "RefsAnnounced"
  | .NodeAnnounced .. => "NodeAnnounced"
  | .UploadPackEv _ => "UploadPack"

/-- The serde-derived serializer for `Event` under
`rename_all = "camelCase", tag = "type"`: an object whose first entry is
the discriminant `"type"` carrying the camelCased variant name, followed
by the named fields of the variant. The newtype variant `UploadPack`
flattens the object of its inner value behind the tag; `sUP` supplies that
object as a field list. The other leaf serializers supply the encodings of
the external field types. -/
def serializeEvent (sN : NId → Json) (sR : RId → Json) (sO : OidT → Json)
    (sU : RefUpd → Json) (sRA : RefsAtT → Json) (sT : Ts → Json)
    (sA : AliasT → Json) (sF : Feat → Json) (sAd : Addr → Json)
    (sUP : UP → List (String × Json)) :
    Event NId RId OidT RefUpd RefsAtT Ts AliasT Feat Addr UP → Json
  | .RefsFetched remote rid updated =>
      .obj (("type", .str (camelCase "RefsFetched")) ::
        [("remote", sN remote), ("rid", sR rid), ("updated", .arr (updated.map sU))])
  | .RefsSynced remote rid at_ =>
      .obj (("type", .str (camelCase "RefsSynced")) ::
        [("remote", sN remote), ("rid", sR rid), ("at", sO at_)])
  | .SeedDiscovered rid nid =>
      .obj (("type", .str (camelCase "SeedDiscovered")) ::
        [("rid", sR rid), ("nid", sN nid)])
  | .SeedDropped rid nid =>
      .obj (("type", .str (camelCase "SeedDropped")) ::
        [("rid", sR rid), ("nid", sN nid)])
  | .PeerConnected nid =>
      .obj (("type", .str (camelCase "PeerConnected")) ::
        [("nid", sN nid)])
  | .PeerDisconnected nid reason =>
      .obj (("type", .str (camelCase "PeerDisconnected")) ::
        [("nid", sN nid), ("reason", .str reason)])
  | .LocalRefsAnnounced rid refs timestamp =>
      .obj (("type", .str (camelCase "LocalRefsAnnounced")) ::
        [("rid", sR rid), ("refs", sRA refs), ("timestamp", sT timestamp)])
  | .InventoryAnnounced nid inventory timestamp =>
      .obj (("type", .str (camelCase "InventoryAnnounced")) ::
        [("nid", sN nid), ("inventory", .arr (inventory.map sR)), ("timestamp", sT timestamp)])
  | .RefsAnnounced nid rid refs timestamp =>
      .obj (("type", .str (camelCase "RefsAnnounced")) ::
        [("nid", sN nid), ("rid", sR rid), ("refs", .arr (refs.map sRA)), ("timestamp", sT timestamp)])
  | .NodeAnnounced nid alias_ timestamp features addresses =>
      .obj (("type", .str (camelCase "NodeAnnounced")) ::
        [("nid", sN nid), ("alias", sA alias_), ("timestamp", sT timestamp),
         ("features", sF features), ("addresses", .arr (addresses.map sAd))])
  | .UploadPackEv up =>
      .obj (("type", .str (camelCase "UploadPack")) :: sUP up)

end EventSerialization

/-- The Rust names of the `Event` variants, in declaration order. -/
def eventVariantNames : List String :=
  ["RefsFetched", "RefsSynced", "SeedDiscovered", "SeedDropped", "PeerConnected",
   "PeerDisconnected", "LocalRefsAnnounced", "InventoryAnnounced", "RefsAnnounced",
   "NodeAnnounced", "UploadPack"]

/-- The Rust names of every named field across the `Event` variants, in
declaration order. -/
def eventFieldNames : List String :=
  ["remote", "rid", "updated", "remote", "rid", "at", "rid", "nid", "rid", "nid",
   "nid", "nid", "reason", "rid", "refs", "timestamp", "nid", "inventory",
   "timestamp", "nid", "rid", "refs", "timestamp", "nid", "alias", "timestamp",
   "features", "addresses"]

theorem getD_set_self {α : Type} :
    ∀ (l : List α) (i : Nat) (x d : α), i < l.length → (l.set i x).getD i d = x := by
  intro l
  induction l with
  | nil => intro i x d h; simp at h
  | cons a l ih =>
    intro i x d h
    cases i with
    | zero => rfl
    | succ n =>
      simp only [List.set_cons_succ, List.getD_cons_succ]
      exact ih n x d (by simpa using h)

/-! Claim theorems. -/

/-- C1: `Emitter::emit` is a total function on the registry with no error
path; the attempted delivery to a subscriber fails exactly when the buffer
of that subscriber is at capacity or its receive side has been dropped,
and on such a failure the subscriber is removed from the registry and no
entry with its channel identity exists after any sequence of later emits,
so it receives no further events. -/
theorem C1_emit_failure_prunes_permanently {T : Type} (em : Emitter T) (s : Subscriber T) (e : T)
    (hmem : s ∈ em.subscribers)
    (hnodup : (em.subscribers.map (fun u => u.id)).Nodup) :
    (trySend s e = none ↔ (s.receiverAlive = false ∨ s.capacity ≤ s.queue.length))
    ∧ (trySend s e = none →
        ∀ (es : List T) (t : Subscriber T),
          t ∈ ((em.emit e).emitAll es).subscribers → t.id ≠ s.id) := by
  refine ⟨trySend_eq_none_iff s e, ?_⟩
  intro hfail es t ht
  have hbase : ∀ u ∈ (em.emit e).subscribers, u.id ≠ s.id := by
    intro u hu
    rcases emit_mem_of_mem em e u hu with ⟨w, hw, hsend⟩
    rw [trySend_id hsend]
    intro hws
    have hws2 : w = s := List.inj_on_of_nodup_map hnodup hw hmem hws
    rw [hws2, hfail] at hsend
    exact Option.noConfusion hsend
  exact emitAll_id_absent es (em.emit e) s.id hbase t ht

/-- Concrete instance of C1: a full capacity-1 subscriber fails the send
and its identity is gone from the registry after the emit and any later
emits. -/
def emW1 : Emitter Nat :=
  { subscribers := [{ id := 0, queue := [5], capacity := 1, receiverAlive := true },
                    { id := 1, queue := [], capacity := 8, receiverAlive := true }],
    nextId := 2 }

def sW1 : Subscriber Nat := { id := 0, queue := [5], capacity := 1, receiverAlive := true }

theorem C1_emit_failure_prunes_permanently_witness :
    (sW1 ∈ emW1.subscribers ∧ (emW1.subscribers.map (fun u => u.id)).Nodup)
    ∧ ((trySend sW1 7 = none ↔ (sW1.receiverAlive = false ∨ sW1.capacity ≤ sW1.queue.length))
       ∧ (trySend sW1 7 = none →
           ∀ (es : List Nat) (t : Subscriber Nat),
             t ∈ ((emW1.emit 7).emitAll es).subscribers → t.id ≠ sW1.id)) :=
  ⟨⟨by decide, by decide⟩,
   C1_emit_failure_prunes_permanently emW1 sW1 7 (by decide) (by decide)⟩

/-- C2: with N subscribers created before any emission and at most
`MAX_PENDING_EVENTS` events then emitted, the registry still holds N
subscribers and the iteration of every one of them yields exactly the
emitted sequence, in emission order. -/
theorem C2_subscribers_observe_emitted_order {T : Type} (N : Nat) (es : List T)
    (hk : es.length ≤ MAX_PENDING_EVENTS) :
    (((Emitter.default (T := T)).subscribeN N).emitAll es).subscriptions = N
    ∧ ∀ s ∈ (((Emitter.default (T := T)).subscribeN N).emitAll es).subscribers,
        Events.intoIter s = es := by
  have hsub := subscribeN_subscribers (T := T) N
  have hcond : ∀ s ∈ ((Emitter.default (T := T)).subscribeN N).subscribers,
      s.receiverAlive = true ∧ s.queue.length + es.length ≤ s.capacity := by
    intro s hs
    rcases hsub.2 s hs with ⟨hq, hc, ha⟩
    refine ⟨ha, ?_⟩
    rw [hq, hc]
    simpa using hk
  have hmap := emitAll_subscribers_map es _ hcond
  constructor
  · show (((Emitter.default (T := T)).subscribeN N).emitAll es).subscribers.length = N
    rw [hmap, List.length_map, hsub.1]
  · intro s hs
    rw [hmap] at hs
    rcases List.mem_map.mp hs with ⟨u, hu, rfl⟩
    have hq := (hsub.2 u hu).1
    simp [Events.intoIter, hq]

theorem C2_subscribers_observe_emitted_order_witness :
    ([1, 2, 3].length ≤ MAX_PENDING_EVENTS)
    ∧ ((((Emitter.default (T := Nat)).subscribeN 2).emitAll [1, 2, 3]).subscriptions = 2
       ∧ ∀ s ∈ (((Emitter.default (T := Nat)).subscribeN 2).emitAll [1, 2, 3]).subscribers,
           Events.intoIter s = [1, 2, 3]) :=
  ⟨by decide, C2_subscribers_observe_emitted_order 2 [1, 2, 3] (by decide)⟩

/-- C3: when the events received first do not satisfy the predicate and
the first satisfying event arrives strictly before the timeout elapses,
`wait` consumes and discards the earlier events and returns success with
exactly the value the predicate produced, the total blocked time staying
within the timeout budget. -/
theorem C3_wait_returns_first_match {E T : Type} (f : E → Option T) (timeout : Nat)
    (pre : List (E × Nat)) (e : E) (dt : Nat) (rest : List (RecvOutcome E)) (v : T)
    (hpre : ∀ p ∈ pre, f p.1 = none)
    (hmatch : f e = some v)
    (harrive : (pre.map Prod.snd).sum + dt < timeout) :
    Events.wait f timeout (okTrace pre ++ RecvOutcome.ok e dt :: rest) 0
      = (Except.ok v, (pre.map Prod.snd).sum + dt)
    ∧ (pre.map Prod.snd).sum + dt ≤ timeout := by
  have h := wait_ok_of_match f timeout v pre 0 e dt rest hpre hmatch (by omega)
  rw [Nat.zero_add] at h
  exact ⟨h, by omega⟩

theorem C3_wait_returns_first_match_witness :
    ((∀ p ∈ ([(1, 2), (2, 3)] : List (Nat × Nat)),
        (fun n => if n = 5 then some (n + 1) else none) p.1 = none)
     ∧ (fun n => if n = 5 then some (n + 1) else none) 5 = some 6
     ∧ ((([(1, 2), (2, 3)] : List (Nat × Nat)).map Prod.snd).sum + 1 < 10))
    ∧ (Events.wait (fun n => if n = 5 then some (n + 1) else none) 10
          (okTrace [(1, 2), (2, 3)] ++ RecvOutcome.ok 5 1 :: []) 0
        = (Except.ok 6, (([(1, 2), (2, 3)] : List (Nat × Nat)).map Prod.snd).sum + 1)
       ∧ (([(1, 2), (2, 3)] : List (Nat × Nat)).map Prod.snd).sum + 1 ≤ 10) :=
  ⟨⟨by decide, by decide, by decide⟩,
   C3_wait_returns_first_match (fun n => if n = 5 then some (n + 1) else none) 10
     [(1, 2), (2, 3)] 5 1 [] 6 (by decide) (by decide) (by decide)⟩

/-- C4: over any trace in which the producing side stays alive and no
received event satisfies the predicate, `wait` fails with the timeout
error and never the disconnect error; and when the producing side
disconnects strictly before the budget runs out, with no satisfying event
before that, `wait` fails with the disconnect error at the disconnection
time, before the timeout has elapsed, the two failure kinds being
distinguished by the returned error value. -/
theorem C4_wait_timeout_vs_disconnect {E T : Type} (f : E → Option T) (timeout : Nat)
    (trace : List (RecvOutcome E)) (pre : List (E × Nat)) (dt : Nat) (rest : List (RecvOutcome E))
    (halive : ∀ o ∈ trace, ∃ e d, o = RecvOutcome.ok e d ∧ f e = none)
    (hpre : ∀ p ∈ pre, f p.1 = none)
    (hdt : (pre.map Prod.snd).sum + dt < timeout) :
    (Events.wait f timeout trace 0).1 = Except.error RecvTimeoutError.timeout
    ∧ Events.wait f timeout (okTrace pre ++ RecvOutcome.disconnected dt :: rest) 0
        = (Except.error RecvTimeoutError.disconnected, (pre.map Prod.snd).sum + dt)
    ∧ (pre.map Prod.snd).sum + dt < timeout := by
  refine ⟨wait_timeout_of_no_match f timeout trace 0 halive, ?_, hdt⟩
  have h := wait_disconnected_of_closed f timeout pre 0 dt rest hpre (by omega)
  rw [Nat.zero_add] at h
  exact h

theorem C4_wait_timeout_vs_disconnect_witness :
    ((∀ o ∈ [RecvOutcome.ok (1 : Nat) 2],
        ∃ e d, o = RecvOutcome.ok e d ∧ (fun n => if n = 5 then some n else none) e = none)
     ∧ (∀ p ∈ ([(1, 2)] : List (Nat × Nat)),
         (fun n => if n = 5 then some n else none) p.1 = none)
     ∧ ((([(1, 2)] : List (Nat × Nat)).map Prod.snd).sum + 3 < 10))
    ∧ ((Events.wait (fun n => if n = 5 then some n else none) 10 [RecvOutcome.ok (1 : Nat) 2] 0).1
         = Except.error RecvTimeoutError.timeout
       ∧ Events.wait (fun n => if n = 5 then some n else none) 10
           (okTrace [(1, 2)] ++ RecvOutcome.disconnected 3 :: []) 0
           = (Except.error RecvTimeoutError.disconnected,
              (([(1, 2)] : List (Nat × Nat)).map Prod.snd).sum + 3)
       ∧ (([(1, 2)] : List (Nat × Nat)).map Prod.snd).sum + 3 < 10) :=
  ⟨⟨by
      intro o ho
      have h := List.mem_singleton.mp ho
      exact ⟨1, 2, h, by decide⟩,
    by decide, by decide⟩,
   C4_wait_timeout_vs_disconnect (fun n => if n = 5 then some n else none) 10
     [RecvOutcome.ok 1 2] [(1, 2)] 3 []
     (by
       intro o ho
       have h := List.mem_singleton.mp ho
       exact ⟨1, 2, h, by decide⟩)
     (by decide) (by decide)⟩

/-- Registry with a single fresh subscriber whose channel capacity is 2,
the state of the C5 scenario. -/
def emC5 {T : Type} : Emitter T :=
  { subscribers := [{ id := 0, queue := [], capacity := 2, receiverAlive := true }], nextId := 1 }

/-- C5 counterexample: in the capacity-2 scenario, `subscriptions()` read
immediately after the emit call for the third event returns is 0, not 1:
`Vec::retain` removes the failed subscriber during that same emit call. -/
theorem C5_counterexample_subscriptions_after_third_emit :
    ¬ ((emC5 (T := Nat)).emitAll [10, 20, 30]).subscriptions = 1 := by
  decide

/-- C5 amended: with channel capacity 2 and a single subscriber, emitting
A, B, C without consumption buffers A and B, and the third emit attempt
fails and prunes the subscriber within that same call: `subscriptions()`
reads 1 after the emit of B, 0 immediately after the emit call for C
returns, and still 0 after one further emit. -/
theorem C5_amended_pruned_during_third_emit {T : Type} (a b c d : T) :
    (((emC5 (T := T)).emit a).emit b).subscriptions = 1
    ∧ (((emC5 (T := T)).emit a).emit b).subscribers
        = [{ id := 0, queue := [a, b], capacity := 2, receiverAlive := true }]
    ∧ ((((emC5 (T := T)).emit a).emit b).emit c).subscriptions = 0
    ∧ (((((emC5 (T := T)).emit a).emit b).emit c).emit d).subscriptions = 0 := by
  refine ⟨rfl, rfl, rfl, rfl⟩

/-- C6: `subscribe` always succeeds, appending exactly one fresh channel
with an empty buffer and capacity `MAX_PENDING_EVENTS = 8192` to the
registry and returning its receive handle; whatever is later buffered for
that channel comes from events emitted after the call, so no earlier event
is ever delivered to it. -/
theorem C6_subscribe_fresh_channel {T : Type} (em : Emitter T)
    (hfresh : ∀ u ∈ em.subscribers, u.id < em.nextId) :
    ((em.subscribe).1.subscribers
      = em.subscribers
        ++ [{ id := em.nextId, queue := [], capacity := MAX_PENDING_EVENTS, receiverAlive := true }])
    ∧ (em.subscribe).2 = em.nextId
    ∧ MAX_PENDING_EVENTS = 8192
    ∧ (∀ (es : List T) (t : Subscriber T),
        t ∈ ((em.subscribe).1.emitAll es).subscribers → t.id = (em.subscribe).2 →
        ∀ x ∈ t.queue, x ∈ es) := by
  refine ⟨rfl, rfl, rfl, ?_⟩
  intro es t ht hid x hx
  have h0 : ∀ u ∈ (em.subscribe).1.subscribers,
      u.id = em.nextId → ∀ y ∈ u.queue, y ∈ ([] : List T) := by
    intro u hu huid y hy
    simp only [Emitter.subscribe] at hu
    rcases List.mem_append.mp hu with hold | hnew
    · exact absurd huid (Nat.ne_of_lt (hfresh u hold))
    · rw [List.mem_singleton.mp hnew] at hy
      simp at hy
  have h := emitAll_queue_mem es (em.subscribe).1 em.nextId [] h0 t ht hid x hx
  simpa using h

theorem C6_subscribe_fresh_channel_witness :
    (∀ u ∈ emW1.subscribers, u.id < emW1.nextId)
    ∧ (((emW1.subscribe).1.subscribers
        = emW1.subscribers
          ++ [{ id := emW1.nextId, queue := [], capacity := MAX_PENDING_EVENTS, receiverAlive := true }])
       ∧ (emW1.subscribe).2 = emW1.nextId
       ∧ MAX_PENDING_EVENTS = 8192
       ∧ (∀ (es : List Nat) (t : Subscriber Nat),
           t ∈ ((emW1.subscribe).1.emitAll es).subscribers → t.id = (emW1.subscribe).2 →
           ∀ x ∈ t.queue, x ∈ es)) :=
  ⟨by decide, C6_subscribe_fresh_channel emW1 (by decide)⟩

/-- C7: `pending` returns the sum, over the registered subscribers, of the
number of events buffered in each channel and not yet received; in
particular, after one subscription and the emission of at most capacity
many events with nothing consumed, it equals the number of emitted
events. -/
theorem C7_pending_sums_unconsumed {T : Type} (em : Emitter T) :
    em.pending = (em.subscribers.map (fun s => s.queue.length)).sum
    ∧ (∀ es : List T, es.length ≤ MAX_PENDING_EVENTS →
        (((Emitter.default (T := T)).subscribe).1.emitAll es).pending = es.length) := by
  refine ⟨rfl, ?_⟩
  intro es hes
  have hcond : ∀ s ∈ ((Emitter.default (T := T)).subscribe).1.subscribers,
      s.receiverAlive = true ∧ s.queue.length + es.length ≤ s.capacity := by
    intro s hs
    simp only [Emitter.subscribe, Emitter.default, List.nil_append, List.mem_singleton] at hs
    rw [hs]
    simpa using hes
  have hmap := emitAll_subscribers_map es _ hcond
  show ((((Emitter.default (T := T)).subscribe).1.emitAll es).subscribers.map
      (fun s => s.queue.length)).sum = es.length
  rw [hmap]
  simp [Emitter.subscribe, Emitter.default]

theorem C7_pending_sums_unconsumed_witness :
    ([1, 2, 3].length ≤ MAX_PENDING_EVENTS)
    ∧ (((Emitter.default (T := Nat)).subscribe).1.emitAll [1, 2, 3]).pending = [1, 2, 3].length :=
  ⟨by decide, (C7_pending_sums_unconsumed (Emitter.default (T := Nat))).2 [1, 2, 3] (by decide)⟩

/-- C8: every `Event` variant serializes as an object whose discriminant
entry is named `type` and carries the variant name rewritten to lower
camel case; the eleven variant tags are exactly the camel-cased variant
names; the named field keys of every variant are fixed points of the
camel-case convention; and `RefsFetched` concretely encodes as an object
tagged `refsFetched` with entries `remote`, `rid` and the array
`updated`. -/
theorem C8_serialization_camel_case_tag
    {NId RId OidT RefUpd RefsAtT Ts AliasT Feat Addr UP : Type}
    (sN : NId → Json) (sR : RId → Json) (sO : OidT → Json) (sU : RefUpd → Json)
    (sRA : RefsAtT → Json) (sT : Ts → Json) (sA : AliasT → Json) (sF : Feat → Json)
    (sAd : Addr → Json) (sUP : UP → List (String × Json))
    (e : Event NId RId OidT RefUpd RefsAtT Ts AliasT Feat Addr UP) :
    (∃ fields, serializeEvent sN sR sO sU sRA sT sA sF sAd sUP e
        = Json.obj (("type", Json.str (camelCase e.variantName)) :: fields))
    ∧ eventVariantNames.map camelCase
        = ["refsFetched", "refsSynced", "seedDiscovered", "seedDropped", "peerConnected",
           "peerDisconnected", "localRefsAnnounced", "inventoryAnnounced", "refsAnnounced",
           "nodeAnnounced", "uploadPack"]
    ∧ eventFieldNames.map camelCase = eventFieldNames
    ∧ (∀ (remote : NId) (rid : RId) (updated : List RefUpd),
        serializeEvent sN sR sO sU sRA sT sA sF sAd sUP (.RefsFetched remote rid updated)
          = Json.obj [("type", Json.str "refsFetched"), ("remote", sN remote),
              ("rid", sR rid), ("updated", Json.arr (updated.map sU))]) := by
  refine ⟨?_, by decide, by decide, ?_⟩
  · cases e <;> exact ⟨_, rfl⟩
  · intro remote rid updated
    have h : camelCase "RefsFetched" = "refsFetched" := by decide
    simp [serializeEvent, h]

/-- C9: the derived clone of an `Emitter` is a second handle to the same
registry allocation: cloning leaves the heap unchanged and yields a handle
dereferencing to the same slot, any interleaving of operations through the
two handles acts exactly as the same operations all through the original
handle, and a subscription performed through the clone is counted by a
`subscriptions()` read through the original. -/
theorem C9_clone_shares_registry {T : Type} (w : World T) (r : EmitterRef)
    (hr : r.ptr < w.heap.length) :
    ((w.cloneEmitter r).1 = w ∧ (w.cloneEmitter r).2 = r)
    ∧ (∀ ops : List (Bool × EmOp T),
        World.runOps w (ops.map (fun p => (if p.1 then r else (w.cloneEmitter r).2, p.2)))
          = World.runOps w (ops.map (fun p => (r, p.2))))
    ∧ ((w.applyOp (w.cloneEmitter r).2 EmOp.subscribe).subscriptionsW r
        = w.subscriptionsW r + 1) := by
  refine ⟨⟨rfl, rfl⟩, ?_, ?_⟩
  · intro ops
    have harg : (fun p : Bool × EmOp T => (if p.1 then r else (w.cloneEmitter r).2, p.2))
        = (fun p : Bool × EmOp T => (r, p.2)) := by
      funext p
      rcases p with ⟨b, op⟩
      cases b <;> rfl
    rw [harg]
  · show ((w.heap.set r.ptr ((w.getEmitter r).subscribe).1).getD r.ptr
        Emitter.default).subscriptions = (w.getEmitter r).subscriptions + 1
    rw [getD_set_self w.heap r.ptr _ Emitter.default hr]
    simp [Emitter.subscribe, Emitter.subscriptions]

/-- Heap with a single emitter allocation, used to witness C9. -/
def wW : World Nat := { heap := [Emitter.default] }

theorem C9_clone_shares_registry_witness :
    (({ ptr := 0 } : EmitterRef).ptr < wW.heap.length)
    ∧ ((wW.applyOp (wW.cloneEmitter { ptr := 0 }).2 EmOp.subscribe).subscriptionsW { ptr := 0 }
        = wW.subscriptionsW { ptr := 0 } + 1) :=
  ⟨by decide, (C9_clone_shares_registry wW { ptr := 0 } (by decide)).2.2⟩

/-- C10: the patch label command computes the new label list as the
existing labels minus the remove set, followed by the add set; a label is
in the result exactly when it is in the add set or survives the removal
filter; hence any label appearing in both the add and the remove set is
present in the result, add taking precedence over remove. -/
theorem C10_label_add_precedence {L : Type} [DecidableEq L] (labels add remove : List L) :
    labelRun labels add remove
      = (labels.filter (fun l => decide (l ∉ remove))) ++ add
    ∧ (∀ x, x ∈ labelRun labels add remove ↔ ((x ∈ labels ∧ x ∉ remove) ∨ x ∈ add))
    ∧ (∀ l ∈ add, l ∈ remove → l ∈ labelRun labels add remove) := by
  refine ⟨rfl, ?_, ?_⟩
  · intro x
    simp [labelRun, List.mem_filter]
  · intro l hl _
    exact List.mem_append.mpr (Or.inr hl)

theorem C10_label_add_precedence_witness :
    ("b" ∈ ["b", "c"] ∧ "b" ∈ ["b"])
    ∧ "b" ∈ labelRun ["a", "b"] ["b", "c"] ["b"] :=
  ⟨⟨by decide, by decide⟩,
   (C10_label_add_precedence ["a", "b"] ["b", "c"] ["b"]).2.2 "b" (by decide) (by decide)⟩

end Heartwood
